import Mathlib

/-!
Shallow embedding of the bulk-edit bot harness of `olclient` (file
`olclient/bots.py`) and of the retry configuration of the OpenLibrary
client (`olclient/openlibrary.py`), with theorems settling the spec
claims about them.

Conventions of the embedding:
* Python `int` becomes `Int`; the change counter and the limit are kept
  as `Int` exactly as the source does (a negative `--limit` is accepted
  by `argparse`).
* `sys.exit()` inside `save` is modelled by an `exited` flag on the
  result of a step: once it is set, the run function consumes no
  further input (the process is gone).
* a Python exception raised by the supplied `save_fn` is modelled by a
  `raised` flag; the statement `self.changed += 1` after the call is
  then never reached, exactly as an unwinding exception skips it.
* `logger.info(msg)` is modelled by appending `msg` to the list of
  emitted log messages (the message strings are those of the source;
  timestamps are added later by the logging formatter, outside the
  harness logic embedded here).
-/

namespace OLClient

/-- JSON values, the shape of what Python's `json.loads` returns. -/
inductive Json where
  | null : Json
  | bool (b : Bool) : Json
  | num (n : Int) : Json
  | str (s : String) : Json
  | arr (elems : List Json) : Json
  | obj (fields : List (String × Json)) : Json

/-- State of an `AbstractBotJob`: the fields of `bots.py` that the
`save` method reads or writes (`self.write_changes`, `self.limit`,
`self.changed`). -/
structure JobState where
  write_changes : Bool
  limit : Int
  changed : Int
deriving DecidableEq, Repr

/-- The log message of `bots.py` line 110. -/
def suppressMsg : String := "Modification not made because write_changes is False."

/-- The log message of `bots.py` line 113. -/
def limitMsg : String := "Modification limit reached. Exiting script."

/-- Result of one call to `AbstractBotJob.save`: the new job state, how
often the supplied `save_fn` was invoked, the log messages emitted, and
whether the call ended in `sys.exit()` (`exited`) or in an exception
propagating out of `save_fn` (`raised`). -/
structure SaveResult where
  state : JobState
  fnCalls : Nat
  logs : List String
  exited : Bool
  raised : Bool
deriving DecidableEq, Repr

/-- The tail of `AbstractBotJob.save` (`bots.py` lines 111-114): the
statement `self.changed += 1` followed by
`if self.limit and self.changed >= self.limit: ... sys.exit()`.
`calls` and `logs0` record what the first half of `save` already did. -/
def saveTail (st : JobState) (calls : Nat) (logs0 : List String) : SaveResult :=
  let st' : JobState := { st with changed := st.changed + 1 }
  if st'.limit ≠ 0 ∧ st'.limit ≤ st'.changed then
    { state := st', fnCalls := calls, logs := logs0 ++ [limitMsg],
      exited := true, raised := false }
  else
    { state := st', fnCalls := calls, logs := logs0, exited := false, raised := false }

/-- `AbstractBotJob.save` (`bots.py` lines 102-114).  `fnOk` tells
whether the supplied `save_fn` returns normally (`true`) or raises
(`false`); when `write_changes` is false the function is never invoked
so `fnOk` is irrelevant. -/
def save (st : JobState) (fnOk : Bool) : SaveResult :=
  if st.write_changes then
    if fnOk then
      saveTail st 1 []
    else
      { state := st, fnCalls := 1, logs := [], exited := false, raised := true }
  else
    saveTail st 0 [suppressMsg]

/-- Result of a whole run: a sequence of `save` calls executed until the
input is exhausted or the process exits (or an exception unwinds). -/
structure RunResult where
  state : JobState
  fnCalls : Nat
  logs : List String
  exited : Bool
  raised : Bool
deriving DecidableEq, Repr

/-- Run `save` once per element of `atts` (each element telling whether
that call's `save_fn` would succeed), stopping as soon as a call exits
the process or raises. -/
def runSaves (st : JobState) : List Bool → RunResult
  | [] => { state := st, fnCalls := 0, logs := [], exited := false, raised := false }
  | ok :: rest =>
    let r := save st ok
    if r.exited || r.raised then
      { state := r.state, fnCalls := r.fnCalls, logs := r.logs,
        exited := r.exited, raised := r.raised }
    else
      let rr := runSaves r.state rest
      { state := rr.state, fnCalls := r.fnCalls + rr.fnCalls,
        logs := r.logs ++ rr.logs, exited := rr.exited, raised := rr.raised }

/-- All job states occurring along a run: the initial state and the
state after each executed `save` call. -/
def runStates (st : JobState) : List Bool → List JobState
  | [] => [st]
  | ok :: rest =>
    let r := save st ok
    if r.exited || r.raised then [st, r.state]
    else st :: runStates r.state rest

/-- The value `__init__` stores in `self.limit` (`bots.py` line 50):
`getattr(self.args, 'limit', None) or limit`.  Python's `or` returns
the right operand when the left one is falsy (`None` or `0`). -/
def effectiveLimit (argsLimit : Option Int) (ctorLimit : Int) : Int :=
  match argsLimit with
  | none => ctorLimit
  | some a => if a = 0 then ctorLimit else a

/-- The value `__init__` stores in `self.write_changes` (`bots.py`
line 49): `write_changes or self.args.write_changes`. -/
def effectiveWrite (ctorWrite : Bool) (argsWrite : Bool) : Bool :=
  ctorWrite || argsWrite

/-- A freshly constructed job: `__init__` sets `self.changed = 0`
(`bots.py` line 51). -/
def initJob (write : Bool) (limit : Int) : JobState :=
  { write_changes := write, limit := limit, changed := 0 }

/-! ### The row decoder (`AbstractBotJob.process_row`, `bots.py` lines 78-95) -/

/-- The input to `process_row`: either a byte string (a line of a
compressed dump, `bytes` in Python) or an already decoded text line
(`str`).  Bytes are modelled as their numeric values. -/
inductive RowInput where
  | bytes (b : List Nat) : RowInput
  | text (s : String) : RowInput

/-- The Python exceptions that can escape `process_row`: a
`UnicodeDecodeError` from `row.decode()`, an `IndexError` from
`row[4]`, or a `json.JSONDecodeError` from `json.loads`.  None of them
is caught inside `process_row` (its `except` clause only catches the
`AttributeError` used to distinguish bytes from text). -/
inductive RowError where
  | unicodeError : RowError
  | indexError : RowError
  | jsonError (msg : String) : RowError

/-- Encoding of one character as UTF-8 bytes, as Python's
`str.encode()` produces them (codepoints are below `0x110000`). -/
def utf8EncodeChar (n : Nat) : List Nat :=
  if n < 0x80 then [n]
  else if n < 0x800 then
    [0xC0 + n / 64, 0x80 + n % 64]
  else if n < 0x10000 then
    [0xE0 + n / 4096, 0x80 + n / 64 % 64, 0x80 + n % 64]
  else
    [0xF0 + n / 262144, 0x80 + n / 4096 % 64, 0x80 + n / 64 % 64, 0x80 + n % 64]

/-- UTF-8 encoding of a text line, as Python's `str.encode()`. -/
def utf8Encode (s : String) : List Nat :=
  s.data.flatMap (fun c => utf8EncodeChar c.toNat)

/-- One step of UTF-8 decoding: the first character encoded at the
head of the byte sequence together with the remaining bytes, or `none`
on malformed input. -/
def utf8Step : List Nat → Option (Char × List Nat)
  | [] => none
  | b0 :: rest =>
    if b0 < 0x80 then some (Char.ofNat b0, rest)
    else if b0 < 0xE0 then
      match rest with
      | b1 :: rest1 =>
        if 0xC2 ≤ b0 ∧ 0x80 ≤ b1 ∧ b1 < 0xC0 then
          some (Char.ofNat ((b0 - 0xC0) * 64 + (b1 - 0x80)), rest1)
        else none
      | _ => none
    else if b0 < 0xF0 then
      match rest with
      | b1 :: b2 :: rest2 =>
        if 0x80 ≤ b1 ∧ b1 < 0xC0 ∧ 0x80 ≤ b2 ∧ b2 < 0xC0 then
          some (Char.ofNat ((b0 - 0xE0) * 4096 + (b1 - 0x80) * 64 + (b2 - 0x80)),
            rest2)
        else none
      | _ => none
    else
      match rest with
      | b1 :: b2 :: b3 :: rest3 =>
        if b0 < 0xF5 ∧ 0x80 ≤ b1 ∧ b1 < 0xC0 ∧ 0x80 ≤ b2 ∧ b2 < 0xC0 ∧
            0x80 ≤ b3 ∧ b3 < 0xC0 then
          some (Char.ofNat ((b0 - 0xF0) * 262144 + (b1 - 0x80) * 4096 +
            (b2 - 0x80) * 64 + (b3 - 0x80)), rest3)
        else none
      | _ => none

/-- Decoding loop: apply `utf8Step` until the bytes are exhausted.
Each step consumes at least one byte, so the length of the input is
enough fuel. -/
def utf8DecodeList : Nat → List Nat → Option (List Char)
  | 0, bs => if bs = [] then some [] else none
  | fuel + 1, bs =>
    if bs = [] then some []
    else
      match utf8Step bs with
      | none => none
      | some (c, rest) => (utf8DecodeList fuel rest).map (fun cs => c :: cs)

/-- Decoding of a UTF-8 byte string into a text line, as Python's
`bytes.decode()` (which defaults to UTF-8); `none` models the
`UnicodeDecodeError` raised on malformed input. -/
def utf8Decode (b : List Nat) : Option String :=
  (utf8DecodeList b.length b).map (fun cs => String.mk cs)

/-- `AbstractBotJob.process_row` (`bots.py` lines 78-95).  `jsonLoads`
stands for Python's `json.loads`, a parameter of the embedding; the
default delimiter is a tab.  The `try`/`except AttributeError` of the
source distinguishes bytes (which have `.decode()`) from text (which
does not): bytes are decoded and then split, text is split directly;
every other exception propagates, modelled by `Except.error`. -/
def process_row (jsonLoads : String → Except String Json) (row : RowInput)
    (delimiter : String := "\t") : Except RowError (List String × Json) :=
  match
    (match row with
     | RowInput.bytes b =>
       match utf8Decode b with
       | some s => Except.ok (s.splitOn delimiter)
       | none => Except.error RowError.unicodeError
     | RowInput.text s => Except.ok (s.splitOn delimiter) :
      Except RowError (List String))
  with
  | Except.error e => Except.error e
  | Except.ok fields =>
    match fields.get? 4 with
    | none => Except.error RowError.indexError
    | some f =>
      match jsonLoads f with
      | Except.ok j => Except.ok (fields, j)
      | Except.error msg => Except.error (RowError.jsonError msg)

/-- Transcribed from the spec's words for the Row Decoder contract
(to be compared with `process_row`): split into an ordered sequence of
fields, parse field index 4 as JSON, return the pair; fail if field 4
is absent or not valid JSON, the failure propagating to the caller. -/
def processRowSpec (jsonLoads : String → Except String Json)
    (fields : List String) : Except RowError (List String × Json) :=
  match fields.get? 4 with
  | none => Except.error RowError.indexError
  | some f =>
    match jsonLoads f with
    | Except.ok j => Except.ok (fields, j)
    | Except.error msg => Except.error (RowError.jsonError msg)

/-- A concrete stand-in for `json.loads` used to evaluate the
definitions on closed inputs: it accepts exactly the JSON literal
`null`. -/
def jsonNull : String → Except String Json := fun f =>
  if f = "null" then Except.ok Json.null else Except.error "Expecting value"

/-! ### The boolean argument parser (`AbstractBotJob._str2bool`, `bots.py` lines 55-68) -/

/-- The message of the `argparse.ArgumentTypeError` raised by
`_str2bool`. -/
def boolErrMsg : String := "Boolean value expected."

/-- Lowercasing as `value.lower()` does on the ASCII strings at stake
(`Char.toLower` maps the ASCII uppercase letters and leaves every
other character unchanged). -/
def pyLower (s : String) : String := String.mk (s.data.map Char.toLower)

/-- `AbstractBotJob._str2bool` (`bots.py` lines 55-68) on a string
argument (the `isinstance(value, bool)` short-cut never fires for a
string); the `argparse.ArgumentTypeError` is modelled as
`Except.error`. -/
def str2bool (value : String) : Except String Bool :=
  if pyLower value ∈ ["yes", "true", "t", "y", "1"] then Except.ok true
  else if pyLower value ∈ ["no", "false", "f", "n", "0"] then Except.ok false
  else Except.error boolErrMsg

/-! ### The retry configuration of the OpenLibrary client
(`openlibrary.py` lines 50-55) and the retry loop of the `backoff`
dependency it is handed to -/

/-- A `requests.RequestException` as the `giveup` predicate sees it:
it may or may not carry a response with a `status_code`. -/
structure ReqError where
  status : Option Int
deriving DecidableEq, Repr

/-- `'max_tries': 5` of `OpenLibrary.BACKOFF_KWARGS`. -/
def BACKOFF_MAX_TRIES : Nat := 5

/-- The `giveup` lambda of `OpenLibrary.BACKOFF_KWARGS`
(`openlibrary.py` line 53): give up when the exception's response has a
status code in `[400, 500)`. -/
def backoff_giveup (e : ReqError) : Bool :=
  match e.status with
  | some c => decide (400 ≤ c ∧ c < 500)
  | none => false

/-- `'wait_gen': backoff.expo` of `OpenLibrary.BACKOFF_KWARGS`: the
n-th wait produced by `backoff.expo` with its default base 2. -/
def backoff_expo (n : Nat) : Nat := 2 ^ n

/-- Result of a request run under the retry decorator: the final
outcome, the number of attempts made, and the waits slept between
consecutive attempts. -/
structure BackoffResult (α : Type) where
  result : Except ReqError α
  tries : Nat
  waits : List Nat
deriving Repr

/-- Modelled from the spec: the retry driver of the `backoff`
dependency (`backoff.on_exception`), which is not part of this
repository.  It calls the wrapped request; on success it returns, on an
exception it stops when `giveup` holds or the try budget is spent, and
otherwise sleeps the next `wait_gen` value and retries.  `attempt k` is
the outcome of the k-th call (numbered from 0), `fuel` the remaining
tries. -/
def backoffGo {α : Type} (attempt : Nat → Except ReqError α) :
    Nat → Nat → BackoffResult α
  | k, 0 => { result := Except.error { status := none }, tries := k, waits := [] }
  | k, fuel + 1 =>
    match attempt k with
    | Except.ok a => { result := Except.ok a, tries := k + 1, waits := [] }
    | Except.error e =>
      if backoff_giveup e ∨ fuel = 0 then
        { result := Except.error e, tries := k + 1, waits := [] }
      else
        let r := backoffGo attempt (k + 1) fuel
        { result := r.result, tries := r.tries, waits := backoff_expo k :: r.waits }

/-- A request run under `@backoff.on_exception(**BACKOFF_KWARGS)` as
`OpenLibrary` configures it: at most `BACKOFF_MAX_TRIES` tries,
exponential waits, give up at once on a 4xx response. -/
def runWithBackoff {α : Type} (attempt : Nat → Except ReqError α) : BackoffResult α :=
  backoffGo attempt 0 BACKOFF_MAX_TRIES

/-- A concrete request used to evaluate the retry model on closed
inputs: every attempt fails with an HTTP 404 response. -/
def att404 : Nat → Except ReqError Unit := fun _ => Except.error { status := some 404 }

/-! ### Helper lemmas on the UTF-8 codec -/

theorem char_toNat_lt (c : Char) : c.toNat < 0x110000 := by
  rcases c.valid with h | ⟨_, h2⟩
  · have h' : c.val.toNat < 0xd800 := h
    exact Nat.lt_trans h' (by norm_num)
  · exact h2

theorem utf8Step_encodeChar (c : Char) (rest : List Nat) :
    utf8Step (utf8EncodeChar c.toNat ++ rest) = some (c, rest) := by
  have hv : c.toNat < 0x110000 := char_toNat_lt c
  by_cases h1 : c.toNat < 0x80
  · rw [utf8EncodeChar, if_pos h1]
    simp only [List.cons_append, List.nil_append, utf8Step, if_pos h1, Char.ofNat_toNat]
  · by_cases h2 : c.toNat < 0x800
    · rw [utf8EncodeChar, if_neg h1, if_pos h2]
      simp only [List.cons_append, List.nil_append, utf8Step]
      rw [if_neg (by omega), if_pos (by omega), if_pos (by omega)]
      have hval : (0xC0 + c.toNat / 64 - 0xC0) * 64 + (0x80 + c.toNat % 64 - 0x80)
          = c.toNat := by omega
      rw [hval, Char.ofNat_toNat]
    · by_cases h3 : c.toNat < 0x10000
      · rw [utf8EncodeChar, if_neg h1, if_neg h2, if_pos h3]
        simp only [List.cons_append, List.nil_append, utf8Step]
        rw [if_neg (by omega), if_neg (by omega), if_pos (by omega), if_pos (by omega)]
        have hval : (0xE0 + c.toNat / 4096 - 0xE0) * 4096 +
            (0x80 + c.toNat / 64 % 64 - 0x80) * 64 + (0x80 + c.toNat % 64 - 0x80)
            = c.toNat := by omega
        rw [hval, Char.ofNat_toNat]
      · rw [utf8EncodeChar, if_neg h1, if_neg h2, if_neg h3]
        simp only [List.cons_append, List.nil_append, utf8Step]
        rw [if_neg (by omega), if_neg (by omega), if_neg (by omega), if_pos (by omega)]
        have hval : (0xF0 + c.toNat / 262144 - 0xF0) * 262144 +
            (0x80 + c.toNat / 4096 % 64 - 0x80) * 4096 +
            (0x80 + c.toNat / 64 % 64 - 0x80) * 64 + (0x80 + c.toNat % 64 - 0x80)
            = c.toNat := by omega
        rw [hval, Char.ofNat_toNat]

theorem utf8EncodeChar_ne_nil (n : Nat) : utf8EncodeChar n ≠ [] := by
  unfold utf8EncodeChar
  split_ifs <;> simp

theorem utf8DecodeList_encode (cs : List Char) (fuel : Nat)
    (h : (cs.flatMap (fun c => utf8EncodeChar c.toNat)).length ≤ fuel) :
    utf8DecodeList fuel (cs.flatMap (fun c => utf8EncodeChar c.toNat)) = some cs := by
  induction cs generalizing fuel with
  | nil => cases fuel <;> simp [utf8DecodeList]
  | cons c cs ih =>
    have hne : utf8EncodeChar c.toNat ≠ [] := utf8EncodeChar_ne_nil _
    rw [List.flatMap_cons] at h ⊢
    have hbs : utf8EncodeChar c.toNat ++ cs.flatMap (fun c => utf8EncodeChar c.toNat)
        ≠ [] := by
      simp [hne]
    cases fuel with
    | zero =>
      exfalso
      have hlen := List.length_pos.2 hbs
      omega
    | succ f =>
      simp only [utf8DecodeList]
      rw [if_neg hbs, utf8Step_encodeChar]
      have hrec : (cs.flatMap (fun c => utf8EncodeChar c.toNat)).length ≤ f := by
        have := List.length_pos.2 hne
        rw [List.length_append] at h
        omega
      show Option.map (fun cs => c :: cs)
        (utf8DecodeList f (cs.flatMap (fun c => utf8EncodeChar c.toNat))) = _
      rw [ih f hrec]
      rfl

/-- Round trip of the modelled codec: decoding the UTF-8 encoding of a
text line gives the line back, as `s.encode().decode()` does in
Python. -/
theorem utf8Decode_utf8Encode (s : String) : utf8Decode (utf8Encode s) = some s := by
  cases s with
  | mk data =>
    rw [utf8Decode, utf8Encode]
    rw [utf8DecodeList_encode data _ (Nat.le_refl _)]
    rfl

/-! ### Helper lemmas on the save/run state machine -/

theorem save_write_changes_eq (st : JobState) (ok : Bool) :
    (save st ok).state.write_changes = st.write_changes := by
  cases hw : st.write_changes <;> cases ok <;>
    simp [save, saveTail, hw] <;> split_ifs <;> rfl

theorem save_limit_eq (st : JobState) (ok : Bool) :
    (save st ok).state.limit = st.limit := by
  cases hw : st.write_changes <;> cases ok <;>
    simp [save, saveTail, hw] <;> split_ifs <;> rfl

theorem save_fnCalls_dry (st : JobState) (ok : Bool) (h : st.write_changes = false) :
    (save st ok).fnCalls = 0 := by
  cases ok <;> simp [save, saveTail, h] <;> split_ifs <;> rfl

theorem runSaves_dry_fnCalls (atts : List Bool) :
    ∀ st : JobState, st.write_changes = false → (runSaves st atts).fnCalls = 0 := by
  induction atts with
  | nil => intro st h; rfl
  | cons ok rest ih =>
    intro st h
    have hw : (save st ok).state.write_changes = false := by
      rw [save_write_changes_eq, h]
    simp only [runSaves]
    split_ifs with hstop
    · exact save_fnCalls_dry st ok h
    · rw [save_fnCalls_dry st ok h, ih _ hw]

theorem save_exited_limit_zero (st : JobState) (ok : Bool) (h : st.limit = 0) :
    (save st ok).exited = false := by
  cases hw : st.write_changes <;> cases ok <;>
    simp [save, saveTail, hw, h]

theorem runSaves_limit_zero (atts : List Bool) :
    ∀ st : JobState, st.limit = 0 → (runSaves st atts).exited = false := by
  induction atts with
  | nil => intro st h; rfl
  | cons ok rest ih =>
    intro st h
    have hl : (save st ok).state.limit = 0 := by rw [save_limit_eq, h]
    simp only [runSaves]
    split_ifs with hstop
    · exact save_exited_limit_zero st ok h
    · exact ih _ hl

theorem save_changed_le (st : JobState) (ok : Bool) (h : st.changed < st.limit) :
    (save st ok).state.changed ≤ st.limit := by
  simp only [save, saveTail]
  split_ifs <;> simp <;> omega

theorem save_not_halted_changed_lt (st : JobState) (ok : Bool)
    (h : st.changed < st.limit) (hL : 0 < st.limit)
    (hex : (save st ok).exited = false) (hr : (save st ok).raised = false) :
    (save st ok).state.changed < st.limit := by
  simp only [save, saveTail] at hex hr ⊢
  split_ifs at hex hr ⊢ <;> simp_all <;> omega

theorem runStates_changed_le (atts : List Bool) :
    ∀ st : JobState, 0 < st.limit → st.changed < st.limit →
      ∀ s ∈ runStates st atts, s.changed ≤ st.limit := by
  induction atts with
  | nil =>
    intro st hL hc s hs
    simp [runStates] at hs
    subst hs
    omega
  | cons ok rest ih =>
    intro st hL hc s hs
    have hlim : (save st ok).state.limit = st.limit := save_limit_eq st ok
    have hch : (save st ok).state.changed ≤ st.limit := save_changed_le st ok hc
    simp only [runStates] at hs
    by_cases hstop : ((save st ok).exited || (save st ok).raised) = true
    · rw [if_pos hstop] at hs
      rcases List.mem_pair.1 hs with h1 | h1
      · subst h1; omega
      · subst h1; exact hch
    · rw [if_neg hstop] at hs
      rcases List.mem_cons.1 hs with h1 | h1
      · subst h1; omega
      · have hne : (save st ok).exited = false ∧ (save st ok).raised = false := by
          constructor <;> (by_contra hx; apply hstop; simp_all)
        have hcont : (save st ok).state.changed < st.limit :=
          save_not_halted_changed_lt st ok hc hL hne.1 hne.2
        have := ih (save st ok).state (by omega) (by omega) s h1
        omega

theorem runSaves_write_budget (n : Nat) :
    ∀ st : JobState, st.write_changes = true → 0 < st.limit →
      st.changed < st.limit →
      ((runSaves st (List.replicate n true)).fnCalls : Int) ≤ st.limit - st.changed ∧
      (st.limit - st.changed ≤ (n : Int) →
        (runSaves st (List.replicate n true)).exited = true ∧
        ((runSaves st (List.replicate n true)).fnCalls : Int) = st.limit - st.changed ∧
        (runSaves st (List.replicate n true)).state.changed = st.limit) := by
  induction n with
  | zero =>
    intro st hw hL hc
    refine ⟨by simp [runSaves]; omega, ?_⟩
    intro hn
    exfalso
    simp at hn
    omega
  | succ n ih =>
    intro st hw hL hc
    rw [List.replicate_succ]
    by_cases hstop : st.limit ≤ st.changed + 1
    · have hsave : save st true =
          { state := { st with changed := st.changed + 1 }, fnCalls := 1,
            logs := [limitMsg], exited := true, raised := false } := by
        simp [save, saveTail, hw]
        omega
      simp only [runSaves, hsave]
      norm_num
      omega
    · have hsave : save st true =
          { state := { st with changed := st.changed + 1 }, fnCalls := 1,
            logs := [], exited := false, raised := false } := by
        simp [save, saveTail, hw]
        intro h
        omega
      have hrec := ih { st with changed := st.changed + 1 } (by simp [hw])
        (by simp; omega) (by simp; omega)
      simp only [runSaves, hsave]
      norm_num
      constructor
      · have := hrec.1
        simp at this ⊢
        omega
      · intro hn
        have h2 := hrec.2 (by simp; omega)
        simp at h2 ⊢
        refine ⟨h2.1, by omega, h2.2.2⟩

theorem truthy_not_falsey (x : String) (h : x ∈ ["yes", "true", "t", "y", "1"]) :
    x ∉ ["no", "false", "f", "n", "0"] := by
  fin_cases h <;> decide

/-! ### Helper lemmas on the retry loop -/

theorem backoffGo_tries_le {α : Type} (attempt : Nat → Except ReqError α) :
    ∀ (fuel k : Nat), (backoffGo attempt k fuel).tries ≤ k + fuel := by
  intro fuel
  induction fuel with
  | zero => intro k; simp [backoffGo]
  | succ f ih =>
    intro k
    simp only [backoffGo]
    cases hak : attempt k with
    | ok a => simp
    | error e =>
      simp only []
      split_ifs with hstop
      · simp
      · have := ih (k + 1)
        simp only []
        omega

theorem backoffGo_tries_ge {α : Type} (attempt : Nat → Except ReqError α) :
    ∀ (fuel k : Nat), 0 < fuel → k + 1 ≤ (backoffGo attempt k fuel).tries := by
  intro fuel
  induction fuel with
  | zero => intro k h; omega
  | succ f ih =>
    intro k _
    simp only [backoffGo]
    cases hak : attempt k with
    | ok a => simp
    | error e =>
      simp only []
      split_ifs with hstop
      · simp
      · have hf : 0 < f := by
          rcases not_or.1 hstop with ⟨_, hf0⟩
          omega
        have := ih (k + 1) hf
        simp only []
        omega

theorem backoffGo_waits_eq {α : Type} (attempt : Nat → Except ReqError α) :
    ∀ (fuel k : Nat), (backoffGo attempt k fuel).waits
      = (List.range' k ((backoffGo attempt k fuel).tries - 1 - k)).map backoff_expo := by
  intro fuel
  induction fuel with
  | zero => intro k; simp [backoffGo]
  | succ f ih =>
    intro k
    simp only [backoffGo]
    cases hak : attempt k with
    | ok a => simp
    | error e =>
      simp only []
      split_ifs with hstop
      · simp
      · have hf : 0 < f := by
          rcases not_or.1 hstop with ⟨_, hf0⟩
          omega
        have hge := backoffGo_tries_ge attempt f (k + 1) hf
        have hw := ih (k + 1)
        simp only []
        rw [hw]
        have hlen : (backoffGo attempt (k + 1) f).tries - 1 - k
            = ((backoffGo attempt (k + 1) f).tries - 1 - (k + 1)) + 1 := by omega
        rw [hlen, List.range'_succ, List.map_cons]

theorem backoffGo_all_fail_reach {α : Type} (attempt : Nat → Except ReqError α) :
    ∀ (fuel k0 k : Nat) (e : ReqError), k0 ≤ k → k - k0 < fuel →
      (∀ j, k0 ≤ j → j < k →
        ∃ e0, attempt j = Except.error e0 ∧ backoff_giveup e0 = false) →
      attempt k = Except.error e → backoff_giveup e = true →
      (backoffGo attempt k0 fuel).result = Except.error e ∧
      (backoffGo attempt k0 fuel).tries = k + 1 := by
  intro fuel
  induction fuel with
  | zero => intro k0 k e h1 h2 _ _ _; omega
  | succ f ih =>
    intro k0 k e hk0 hfuel hprev hak hgu
    by_cases heq : k0 = k
    · subst heq
      simp only [backoffGo]
      rw [hak]
      simp only []
      rw [if_pos (Or.inl hgu)]
      exact ⟨rfl, rfl⟩
    · have hlt : k0 < k := by omega
      obtain ⟨e0, hae0, hge0⟩ := hprev k0 (le_refl _) hlt
      simp only [backoffGo]
      rw [hae0]
      simp only []
      rw [if_neg (by simp [hge0]; omega)]
      have hrec := ih (k0 + 1) k e (by omega) (by omega)
        (fun j hj1 hj2 => hprev j (by omega) hj2) hak hgu
      exact ⟨hrec.1, hrec.2⟩

/-! ### The claims -/

/-- C1: with write_changes true and a limit L > 0, a run of `save`
calls invokes the supplied persistence action at most L times, and once
at least L calls are attempted the run ends in `sys.exit()` at the Lth
call, right after the change counter was incremented to L. -/
theorem save_limit_budget (L : Int) (hL : 0 < L) (n : Nat) :
    ((runSaves (initJob true L) (List.replicate n true)).fnCalls : Int) ≤ L ∧
    (L ≤ (n : Int) →
      (runSaves (initJob true L) (List.replicate n true)).exited = true ∧
      ((runSaves (initJob true L) (List.replicate n true)).fnCalls : Int) = L ∧
      (runSaves (initJob true L) (List.replicate n true)).state.changed = L) := by
  have h := runSaves_write_budget n (initJob true L) rfl hL (by simp [initJob]; omega)
  simp [initJob] at h
  exact h

/-- C1 witness: with limit 2 and three attempted changes, exactly two
persistence calls happen and the run exits with the counter at 2. -/
theorem save_limit_budget_witness :
    ((runSaves (initJob true 2) (List.replicate 3 true)).fnCalls : Int) ≤ 2 ∧
    (runSaves (initJob true 2) (List.replicate 3 true)).exited = true ∧
    ((runSaves (initJob true 2) (List.replicate 3 true)).fnCalls : Int) = 2 ∧
    (runSaves (initJob true 2) (List.replicate 3 true)).state.changed = 2 := by
  have h := save_limit_budget 2 (by norm_num) 3
  exact ⟨h.1, (h.2 (by norm_num)).1, (h.2 (by norm_num)).2.1, (h.2 (by norm_num)).2.2⟩

/-- C2: the claim says a command-line limit of 0 is stored as 0 and
means unlimited.  In the code, `self.limit = getattr(self.args,
'limit', None) or limit` turns a falsy `args.limit == 0` into the
constructor default 1, so the job exits the process at the very first
change; had the limit really been stored as 0, `save` would never exit
(last conjunct). -/
theorem limit_zero_cli_bug :
    effectiveLimit (some 0) 1 = 1 ∧
    (runSaves (initJob true (effectiveLimit (some 0) 1)) [true]).exited = true ∧
    (runSaves (initJob true (effectiveLimit (some 0) 1)) [true]).state.changed = 1 ∧
    (∀ n : Nat,
      (runSaves (initJob true 0) (List.replicate n true)).exited = false) := by
  refine ⟨rfl, by decide, by decide, ?_⟩
  intro n
  exact runSaves_limit_zero (List.replicate n true) (initJob true 0) rfl

/-- C3: with write_changes false, `save` never invokes the persistence
action, logs the suppression message and still increments the change
counter exactly once; with write_changes true the action is invoked
exactly once per call. -/
theorem save_dry_run_and_write (st : JobState) (fnOk : Bool) :
    ((save { st with write_changes := false } fnOk).fnCalls = 0 ∧
      suppressMsg ∈ (save { st with write_changes := false } fnOk).logs ∧
      (save { st with write_changes := false } fnOk).state.changed = st.changed + 1) ∧
    (save { st with write_changes := true } true).fnCalls = 1 := by
  refine ⟨⟨?_, ?_, ?_⟩, ?_⟩
  · exact save_fnCalls_dry _ fnOk rfl
  · cases fnOk <;> simp [save, saveTail] <;> split_ifs <;> simp
  · cases fnOk <;> simp [save, saveTail] <;> split_ifs <;> rfl
  · simp [save, saveTail]
    split_ifs <;> rfl

/-- C4 counterexample: the claim speaks of every non-zero limit, but
with the (reachable) configured limit -1 the very first `save` leaves
the counter at 1 > -1 + 1, exceeding the limit by two. -/
theorem changed_bound_counterexample :
    effectiveLimit (some (-1)) 1 = -1 ∧
    ∃ s ∈ runStates (initJob true (-1)) [true],
      s.changed > (initJob true (-1)).limit + 1 := by
  refine ⟨rfl, ?_⟩
  decide

/-- C4 amended: over every reachable state of a run with a positive
limit L, the change counter never exceeds L by more than one (in fact
it never exceeds L at all). -/
theorem changed_bound_amended (L : Int) (hL : 0 < L) (w : Bool) (atts : List Bool) :
    ∀ s ∈ runStates (initJob w L) atts, s.changed ≤ L + 1 := by
  intro s hs
  have := runStates_changed_le atts (initJob w L) hL (by simp [initJob]; omega) s hs
  simp [initJob] at this
  omega

/-- C4 witness: the bound applied to the initial state of a run with
limit 2. -/
theorem changed_bound_amended_witness :
    (initJob true 2).changed ≤ 2 + 1 :=
  changed_bound_amended 2 (by norm_num) true [] (initJob true 2) (by decide)

/-- C5: `process_row` realises the Row Decoder contract on text input
and on byte input that decodes: it splits the line on the delimiter,
parses field index 4 as JSON and returns the pair, and returns (that
is, propagates) the error when field 4 is absent or not valid JSON. -/
theorem process_row_spec (jsonLoads : String → Except String Json) (d : String) :
    (∀ s : String, process_row jsonLoads (RowInput.text s) d
        = processRowSpec jsonLoads (s.splitOn d)) ∧
    (∀ b : List Nat, ∀ s : String, utf8Decode b = some s →
        process_row jsonLoads (RowInput.bytes b) d
          = processRowSpec jsonLoads (s.splitOn d)) := by
  constructor
  · intro s
    simp [process_row, processRowSpec]
  · intro b s h
    simp [process_row, processRowSpec, h]

/-- C5 witness: the contract evaluated on a concrete five-field row,
as text and as UTF-8 bytes. -/
theorem process_row_spec_witness :
    process_row jsonNull (RowInput.text "a\tb\tc\td\tnull") "\t"
        = processRowSpec jsonNull (("a\tb\tc\td\tnull").splitOn "\t") ∧
    utf8Decode (utf8Encode "a\tb\tc\td\tnull") = some "a\tb\tc\td\tnull" ∧
    process_row jsonNull (RowInput.bytes (utf8Encode "a\tb\tc\td\tnull")) "\t"
        = processRowSpec jsonNull (("a\tb\tc\td\tnull").splitOn "\t") :=
  ⟨(process_row_spec jsonNull "\t").1 "a\tb\tc\td\tnull", by decide,
    (process_row_spec jsonNull "\t").2 (utf8Encode "a\tb\tc\td\tnull")
      "a\tb\tc\td\tnull" (by decide)⟩

/-- C6 counterexample: the claim says `_str2bool` returns true exactly
for the five strings yes/true/t/y/1, but the parser lowercases its
input first, so the string True is also accepted although it is not
one of the five. -/
theorem str2bool_counterexample :
    str2bool "True" = Except.ok true ∧
    "True" ∉ (["yes", "true", "t", "y", "1"] : List String) :=
  ⟨by unfold str2bool; rw [if_pos (by decide)], by decide⟩

/-- C6 amended: `_str2bool` returns true exactly for strings whose
lowercased form is yes/true/t/y/1, false exactly for those whose
lowercased form is no/false/f/n/0, and raises the argparse error for
every other string. -/
theorem str2bool_amended (value : String) :
    (str2bool value = Except.ok true ↔
      pyLower value ∈ ["yes", "true", "t", "y", "1"]) ∧
    (str2bool value = Except.ok false ↔
      pyLower value ∈ ["no", "false", "f", "n", "0"]) ∧
    (str2bool value = Except.error boolErrMsg ↔
      (pyLower value ∉ ["yes", "true", "t", "y", "1"] ∧
        pyLower value ∉ ["no", "false", "f", "n", "0"])) := by
  unfold str2bool
  split_ifs with h1 h2
  · have h3 := truthy_not_falsey _ h1
    simp [h1, h3]
  · simp [h1, h2]
  · simp [h1, h2]

/-- C7: two dry runs over the same attempts from freshly constructed
jobs emit the same log messages; the fresh jobs carry no state (counter
0) and a dry run never invokes the persistence action. -/
theorem dry_run_deterministic (L : Int) (atts : List Bool) (j1 j2 : JobState)
    (h1 : j1 = initJob false L) (h2 : j2 = initJob false L) :
    (runSaves j1 atts).logs = (runSaves j2 atts).logs ∧
    (runSaves j1 atts).fnCalls = 0 ∧ j1.changed = 0 ∧ j2.changed = 0 := by
  subst h1; subst h2
  exact ⟨rfl, runSaves_dry_fnCalls atts _ rfl, rfl, rfl⟩

/-- C7 witness: the determinism statement evaluated for two fresh
dry-run jobs with limit 5 over two rows. -/
theorem dry_run_deterministic_witness :
    (runSaves (initJob false 5) [true, true]).logs
        = (runSaves (initJob false 5) [true, true]).logs ∧
    (runSaves (initJob false 5) [true, true]).fnCalls = 0 ∧
    (initJob false 5).changed = 0 ∧ (initJob false 5).changed = 0 :=
  dry_run_deterministic 5 [true, true] (initJob false 5) (initJob false 5) rfl rfl

/-- C8: under the configured retry policy a request is attempted at
most 5 times, the waits slept between consecutive attempts are the
exponential sequence 2^0, 2^1, ..., and as soon as an attempt fails
with a response carrying a 4xx status the loop gives up at once, with
no further attempt. -/
theorem backoff_bounded_with_4xx_giveup {α : Type} (attempt : Nat → Except ReqError α) :
    (runWithBackoff attempt).tries ≤ BACKOFF_MAX_TRIES ∧
    (runWithBackoff attempt).waits
        = (List.range ((runWithBackoff attempt).tries - 1)).map backoff_expo ∧
    (∀ (k : Nat) (e : ReqError), k < BACKOFF_MAX_TRIES →
      (∀ j, j < k →
        ∃ e0, attempt j = Except.error e0 ∧ backoff_giveup e0 = false) →
      attempt k = Except.error e → backoff_giveup e = true →
      (runWithBackoff attempt).result = Except.error e ∧
      (runWithBackoff attempt).tries = k + 1) := by
  refine ⟨?_, ?_, ?_⟩
  · have h := backoffGo_tries_le attempt BACKOFF_MAX_TRIES 0
    simpa [runWithBackoff] using h
  · have h := backoffGo_waits_eq attempt BACKOFF_MAX_TRIES 0
    rw [List.range_eq_range']
    simpa [runWithBackoff] using h
  · intro k e hk hprev hak hgu
    exact backoffGo_all_fail_reach attempt BACKOFF_MAX_TRIES 0 k e (Nat.zero_le k)
      (by omega) (fun j _ hj2 => hprev j hj2) hak hgu

/-- C8 witness: a request that always fails with HTTP 404 is attempted
exactly once and its error surfaces. -/
theorem backoff_bounded_witness :
    (runWithBackoff att404).tries ≤ BACKOFF_MAX_TRIES ∧
    (runWithBackoff att404).result = Except.error { status := some 404 } ∧
    (runWithBackoff att404).tries = 0 + 1 := by
  have h := backoff_bounded_with_4xx_giveup att404
  have h3 := h.2.2 0 { status := some 404 } (by decide)
    (fun j hj => absurd hj (Nat.not_lt_zero j)) rfl (by decide)
  exact ⟨h.1, h3.1, h3.2⟩

/-- C9: when the persistence action raises, the exception propagates
out of `save` (the `raised` flag) with the change counter unchanged, no
process exit and no log line: the increment sits after the call and is
skipped by the unwinding exception. -/
theorem save_exception_atomic (st : JobState) :
    (save { st with write_changes := true } false).raised = true ∧
    (save { st with write_changes := true } false).state.changed = st.changed ∧
    (save { st with write_changes := true } false).exited = false ∧
    (save { st with write_changes := true } false).fnCalls = 1 ∧
    (save { st with write_changes := true } false).logs = [] := by
  simp [save]

/-- C10: `process_row` is agnostic to byte versus text input: on the
UTF-8 encoding of a text line it returns exactly what it returns on
the line itself, for every delimiter and every JSON parser. -/
theorem process_row_bytes_text_agree (jsonLoads : String → Except String Json)
    (s d : String) :
    process_row jsonLoads (RowInput.bytes (utf8Encode s)) d
      = process_row jsonLoads (RowInput.text s) d := by
  simp [process_row, utf8Decode_utf8Encode]

end OLClient
